import Mathlib

/-!
Verification of the clawdbot exec-approval engine, exec tool gating,
SSRF guard, session override handling and push-event mapping.

The definitions below are shallow embeddings of the TypeScript sources
(`src/infra/exec-approvals.ts`, `src/agents/bash-tools.exec.ts`,
`src/infra/net/ssrf.ts`) and, where the implementation is only present
through its tests, models built from the specification.  Strings are
handled through their underlying character lists so that every
definition evaluates inside the kernel.
-/

/-! ### Generic string helpers (JS `trim`, `toLowerCase`, `split`, …) -/

/-- Characters removed by JS `String.prototype.trim` (whitespace on both ends). -/
def trimList (cs : List Char) : List Char :=
  ((cs.dropWhile Char.isWhitespace).reverse.dropWhile Char.isWhitespace).reverse

/-- JS `trim` on a string. -/
def jsTrim (s : String) : String := ⟨trimList s.data⟩

/-- JS `toLowerCase` (ASCII case folding, which covers every input in this code base). -/
def lowerList (cs : List Char) : List Char := cs.map Char.toLower

/-- JS `trim().toLowerCase()` combination used by the normalizers. -/
def lowerTrim (s : String) : String := ⟨lowerList (trimList s.data)⟩

/-- JS `String.prototype.split(sep)` for a one-character separator. -/
def splitOnChar (sep : Char) : List Char → List (List Char)
  | [] => [[]]
  | c :: cs =>
    let r := splitOnChar sep cs
    if c = sep then [] :: r
    else
      match r with
      | [] => [[c]]
      | g :: gs => (c :: g) :: gs

/-- Numeric value of a decimal digit list (most significant first). -/
def decDigitsVal (ds : List Char) : Nat :=
  ds.foldl (fun a c => a * 10 + (c.toNat - 48)) 0

/-- Whether a character is a hexadecimal digit. -/
def isHexDigit (c : Char) : Bool :=
  c.isDigit || ('a' ≤ c && c ≤ 'f') || ('A' ≤ c && c ≤ 'F')

/-- Numeric value of a single hexadecimal digit. -/
def hexDigitVal (c : Char) : Nat :=
  if c.isDigit then c.toNat - 48
  else if 'a' ≤ c && c ≤ 'f' then c.toNat - 87
  else c.toNat - 55

/-- Numeric value of a hexadecimal digit list (most significant first). -/
def hexDigitsVal (ds : List Char) : Nat :=
  ds.foldl (fun a c => a * 16 + hexDigitVal c) 0

/-- JS `Number.parseInt(s, 10)`: skip whitespace, optional sign, then the longest
decimal-digit run; `none` models `NaN` (no digits found). -/
def jsParseIntDec (s : String) : Option Int :=
  let cs := trimList s.data
  let signed : Int × List Char :=
    match cs with
    | '-' :: r => (-1, r)
    | '+' :: r => (1, r)
    | r => (1, r)
  let ds := signed.2.takeWhile Char.isDigit
  if ds.isEmpty then none else some (signed.1 * (decDigitsVal ds : Int))

/-- JS `Number.parseInt(s, 16)`: skip whitespace, optional sign, optional `0x`
prefix, then the longest hexadecimal-digit run; `none` models `NaN`. -/
def jsParseIntHex (s : String) : Option Int :=
  let cs := trimList s.data
  let signed : Int × List Char :=
    match cs with
    | '-' :: r => (-1, r)
    | '+' :: r => (1, r)
    | r => (1, r)
  let body : List Char :=
    match signed.2 with
    | '0' :: 'x' :: r => r
    | '0' :: 'X' :: r => r
    | r => r
  let ds := body.takeWhile isHexDigit
  if ds.isEmpty then none else some (signed.1 * (hexDigitsVal ds : Int))

/-! ### Exec security and ask levels (`src/infra/exec-approvals.ts`) -/

/-- `ExecHost` from exec-approvals.ts: `"sandbox" | "gateway" | "node"`. -/
inductive ExecHost
  | sandbox
  | gateway
  | node
deriving DecidableEq, Repr, Fintype

/-- `ExecSecurity` from exec-approvals.ts: `"deny" | "allowlist" | "full"`. -/
inductive ExecSecurity
  | deny
  | allowlist
  | full
deriving DecidableEq, Repr, Fintype

/-- `ExecAsk` from exec-approvals.ts: `"off" | "on-miss" | "always"`. -/
inductive ExecAsk
  | off
  | onMiss
  | always
deriving DecidableEq, Repr, Fintype

/-- The numeric order used by `minSecurity`: `{ deny: 0, allowlist: 1, full: 2 }`. -/
def securityOrder : ExecSecurity → Nat
  | .deny => 0
  | .allowlist => 1
  | .full => 2

/-- The numeric order used by `maxAsk`: `{ off: 0, "on-miss": 1, always: 2 }`. -/
def askOrder : ExecAsk → Nat
  | .off => 0
  | .onMiss => 1
  | .always => 2

/-- `minSecurity(a, b)` from exec-approvals.ts: `order[a] <= order[b] ? a : b`. -/
def minSecurity (a b : ExecSecurity) : ExecSecurity :=
  if securityOrder a ≤ securityOrder b then a else b

/-- `maxAsk(a, b)` from exec-approvals.ts: `order[a] >= order[b] ? a : b`. -/
def maxAsk (a b : ExecAsk) : ExecAsk :=
  if askOrder a ≥ askOrder b then a else b

/-! ### Claim C5: `minSecurity` / `maxAsk` algebra -/

/-- C5: `minSecurity` is commutative and associative on `{deny, allowlist, full}`
with `deny` absorbing, and `maxAsk` is commutative and associative on
`{off, on-miss, always}` with `always` absorbing. -/
theorem minSecurity_maxAsk_lattice :
    (∀ a b : ExecSecurity, minSecurity a b = minSecurity b a) ∧
    (∀ a b c : ExecSecurity, minSecurity (minSecurity a b) c = minSecurity a (minSecurity b c)) ∧
    (∀ a : ExecSecurity, minSecurity .deny a = .deny) ∧
    (∀ a b : ExecAsk, maxAsk a b = maxAsk b a) ∧
    (∀ a b c : ExecAsk, maxAsk (maxAsk a b) c = maxAsk a (maxAsk b c)) ∧
    (∀ a : ExecAsk, maxAsk .always a = .always) := by
  refine ⟨?_, ?_, ?_, ?_, ?_, ?_⟩
  · intro a b; cases a <;> cases b <;> rfl
  · intro a b c; cases a <;> cases b <;> cases c <;> rfl
  · intro a; cases a <;> rfl
  · intro a b; cases a <;> cases b <;> rfl
  · intro a b c; cases a <;> cases b <;> cases c <;> rfl
  · intro a; cases a <;> rfl

/-! ### Glob matching (`globToRegExp` / `matchesPattern` / `matchAllowlist`) -/

/-- JS regex line terminators: without the `s` flag the regex atom `.` matches
any character except these four. -/
def isLineTerminator (c : Char) : Bool :=
  c = '\n' || c = '\r' || c = '\u2028' || c = '\u2029'

/-- One compiled regex atom, mirroring one step of the `globToRegExp` loop:
`dstar` is the emitted fragment `.*`, `star` is `[^/]*`, `qmark` is the `.`
emitted for `?`, and `raw c` is the source character emitted verbatim: the
escape step applies a character-class regex spanning several characters to a
one-character string, so it never matches and every non-wildcard character
reaches the RegExp unescaped. -/
inductive GlobTok
  | dstar
  | star
  | qmark
  | raw (c : Char)
deriving DecidableEq, Repr

/-- The `while` loop of `globToRegExp`: `**` consumes two characters and emits
`.*`; `*` emits `[^/]*`; `?` emits `.`; every other character is emitted raw
(the escape in the source never fires). -/
def globCompile : List Char → List GlobTok
  | [] => []
  | '*' :: '*' :: p => .dstar :: globCompile p
  | '*' :: p => .star :: globCompile p
  | '?' :: p => .qmark :: globCompile p
  | c :: p => .raw c :: globCompile p

/-- Characters that act as structural regex operators when they reach the
RegExp unescaped (quantifiers, groups, alternation, classes, repetition
braces, anchors, escape). An unescaped `.` is not structural: it stays a
single-character atom and is modelled exactly. -/
def structuralRegexChar (c : Char) : Bool :=
  c = '+' || c = '(' || c = ')' || c = '|' || c = '[' || c = ']' ||
  c = '\x7b' || c = '\x7d' || c = '^' || c = '$' || c = '\\'

/-- Guard for the modelled regex fragment: no structural regex character was
emitted raw. Every glob whose non-wildcard characters are ordinary path
characters (letters, digits, `/`, `.`, `-`, `_`, `~`, …) satisfies it; the
matcher below models `RegExp.test` exactly on this fragment. -/
def regexSimple (toks : List GlobTok) : Bool :=
  toks.all fun t =>
    match t with
    | .raw c => !structuralRegexChar c
    | _ => true

/-- Fuel-indexed executable matcher for the anchored regex built by
`globToRegExp` (`^tokens$`). The fuel strictly exceeds the combined length of
pattern and target at every call from `tokMatch`, so the `0` case is
unreachable there. -/
def tokMatchF : Nat → List GlobTok → List Char → Bool
  | 0, _, _ => false
  | _ + 1, [], t => t.isEmpty
  | f + 1, .dstar :: p, t =>
    tokMatchF f p t ||
      (match t with
       | [] => false
       | d :: t2 => !isLineTerminator d && tokMatchF f (.dstar :: p) t2)
  | f + 1, .star :: p, t =>
    tokMatchF f p t ||
      (match t with
       | [] => false
       | d :: t2 => (d != '/') && tokMatchF f (.star :: p) t2)
  | f + 1, .qmark :: p, t =>
    (match t with
     | [] => false
     | d :: t2 => !isLineTerminator d && tokMatchF f p t2)
  | f + 1, .raw c :: p, t =>
    (match t with
     | [] => false
     | d :: t2 =>
       (if c = '.' then !isLineTerminator d else c == d) && tokMatchF f p t2)

/-- Anchored matching of a compiled glob against a target, as performed by
`regex.test(target)` in `matchesPattern`. -/
def tokMatch (p : List GlobTok) (t : List Char) : Bool :=
  tokMatchF (p.length + t.length + 1) p t

/-- Declarative semantics of the anchored regex `^tokens$` on the simple
fragment: `.*` matches any run of non-line-terminator characters (path
separators included), `[^/]*` matches any separator-free run (line terminators
allowed), the atom `.` (from `?` or a raw `.`) matches exactly one
non-line-terminator character, and any other raw character matches itself. -/
def TokSpec : List GlobTok → List Char → Prop
  | [], t => t = []
  | .dstar :: p, t =>
    ∃ t1 t2, t = t1 ++ t2 ∧ (∀ c ∈ t1, isLineTerminator c = false) ∧ TokSpec p t2
  | .star :: p, t => ∃ t1 t2, t = t1 ++ t2 ∧ (∀ c ∈ t1, c ≠ '/') ∧ TokSpec p t2
  | .qmark :: p, t => ∃ d t2, t = d :: t2 ∧ isLineTerminator d = false ∧ TokSpec p t2
  | .raw c :: p, t =>
    ∃ d t2, t = d :: t2 ∧
      (if c = '.' then isLineTerminator d = false else d = c) ∧ TokSpec p t2

theorem tokMatchF_iff (f : Nat) :
    ∀ (p : List GlobTok) (t : List Char), p.length + t.length < f →
      (tokMatchF f p t = true ↔ TokSpec p t) := by
  induction f with
  | zero => intro p t h; omega
  | succ n ih =>
    intro p t h
    match p with
    | [] =>
      simp [tokMatchF, TokSpec, List.isEmpty_iff]
    | .dstar :: p =>
      simp only [tokMatchF, TokSpec, Bool.or_eq_true]
      constructor
      · rintro (hm | hm)
        · exact ⟨[], t, rfl, by simp, (ih p t (by simp at h ⊢; omega)).mp hm⟩
        · match t, hm with
          | d :: t2, hm =>
            simp only [Bool.and_eq_true, Bool.not_eq_eq_eq_not, Bool.not_true] at hm
            obtain ⟨hd, hm⟩ := hm
            have hs := (ih (.dstar :: p) t2 (by simp at h ⊢; omega)).mp hm
            obtain ⟨u, v, rfl, hu, hv⟩ := hs
            refine ⟨d :: u, v, rfl, ?_, hv⟩
            intro c hc
            rcases List.mem_cons.mp hc with rfl | hc
            · exact hd
            · exact hu c hc
      · rintro ⟨t1, t2, rfl, hu, hv⟩
        match t1 with
        | [] =>
          exact Or.inl ((ih p t2 (by simp at h ⊢; omega)).mpr hv)
        | d :: t1 =>
          refine Or.inr ?_
          have hm : tokMatchF n (.dstar :: p) (t1 ++ t2) = true :=
            (ih (.dstar :: p) (t1 ++ t2) (by simp at h ⊢; omega)).mpr
              ⟨t1, t2, rfl, fun c hc => hu c (List.mem_cons_of_mem d hc), hv⟩
          have hd : isLineTerminator d = false := hu d (List.mem_cons_self d t1)
          simp only [List.cons_append]
          simp [hm, hd]
    | .star :: p =>
      simp only [tokMatchF, TokSpec, Bool.or_eq_true]
      constructor
      · rintro (hm | hm)
        · exact ⟨[], t, rfl, by simp, (ih p t (by simp at h ⊢; omega)).mp hm⟩
        · match t, hm with
          | d :: t2, hm =>
            simp only [Bool.and_eq_true, bne_iff_ne, ne_eq] at hm
            obtain ⟨hd, hm⟩ := hm
            have hs := (ih (.star :: p) t2 (by simp at h ⊢; omega)).mp hm
            obtain ⟨u, v, rfl, hu, hv⟩ := hs
            refine ⟨d :: u, v, rfl, ?_, hv⟩
            intro c hc
            rcases List.mem_cons.mp hc with rfl | hc
            · exact hd
            · exact hu c hc
      · rintro ⟨t1, t2, rfl, hu, hv⟩
        match t1 with
        | [] =>
          exact Or.inl ((ih p t2 (by simp at h ⊢; omega)).mpr hv)
        | d :: t1 =>
          refine Or.inr ?_
          have hm : tokMatchF n (.star :: p) (t1 ++ t2) = true :=
            (ih (.star :: p) (t1 ++ t2) (by simp at h ⊢; omega)).mpr
              ⟨t1, t2, rfl, fun c hc => hu c (List.mem_cons_of_mem d hc), hv⟩
          have hd : d ≠ '/' := hu d (List.mem_cons_self d t1)
          simp only [List.cons_append]
          simp [hm, hd]
      | .qmark :: p =>
        simp only [tokMatchF, TokSpec]
        constructor
        · intro hm
          match t, hm with
          | d :: t2, hm =>
            simp only [Bool.and_eq_true, Bool.not_eq_eq_eq_not, Bool.not_true] at hm
            obtain ⟨hd, hm⟩ := hm
            exact ⟨d, t2, rfl, hd, (ih p t2 (by simp at h ⊢; omega)).mp hm⟩
        · rintro ⟨d, t2, rfl, hd, hv⟩
          simp only [hd, Bool.not_false, Bool.true_and]
          exact (ih p t2 (by simp at h ⊢; omega)).mpr hv
      | .raw c :: p =>
        simp only [tokMatchF, TokSpec]
        constructor
        · intro hm
          match t, hm with
          | d :: t2, hm =>
            simp only [Bool.and_eq_true] at hm
            obtain ⟨hcond, hm⟩ := hm
            refine ⟨d, t2, rfl, ?_, (ih p t2 (by simp at h ⊢; omega)).mp hm⟩
            by_cases hc : c = '.'
            · simp only [if_pos hc] at hcond ⊢
              simpa using hcond
            · simp only [if_neg hc] at hcond ⊢
              exact (beq_iff_eq.mp hcond).symm
        · rintro ⟨d, t2, rfl, hcond, hv⟩
          simp only [Bool.and_eq_true]
          refine ⟨?_, (ih p t2 (by simp at h ⊢; omega)).mpr hv⟩
          by_cases hc : c = '.'
          · simp only [if_pos hc] at hcond ⊢
            simp [hcond]
          · simp only [if_neg hc] at hcond ⊢
            exact beq_iff_eq.mpr hcond.symm

theorem tokMatch_iff (p : List GlobTok) (t : List Char) :
    tokMatch p t = true ↔ TokSpec p t :=
  tokMatchF_iff (p.length + t.length + 1) p t (by omega)

theorem char_toNat_ofNat (n : Nat) (h : n < 0xd800) : (Char.ofNat n).toNat = n := by
  simp only [Char.ofNat, Nat.isValidChar, UInt32.isValidChar]
  rw [dif_pos (Or.inl h)]
  simp [Char.ofNatAux, Char.toNat, UInt32.toNat, UInt32.ofNatCore]

theorem char_toLower_toLower (c : Char) : c.toLower.toLower = c.toLower := by
  unfold Char.toLower
  by_cases h : c.toNat ≥ 65 ∧ c.toNat ≤ 90
  · simp only [if_pos h]
    rw [char_toNat_ofNat (c.toNat + 32) (by omega)]
    have hno : ¬(c.toNat + 32 ≥ 65 ∧ c.toNat + 32 ≤ 90) := by omega
    simp only [if_neg hno]
  · simp only [if_neg h]

theorem char_toLower_ne_backslash (c : Char) (h : c ≠ '\\') : c.toLower ≠ '\\' := by
  unfold Char.toLower
  by_cases hc : c.toNat ≥ 65 ∧ c.toNat ≤ 90
  · simp only [if_pos hc]
    intro heq
    have h2 := congrArg Char.toNat heq
    rw [char_toNat_ofNat (c.toNat + 32) (by omega)] at h2
    have h3 : ('\\').toNat = 92 := by decide
    omega
  · simp only [if_neg hc]; exact h

/-- The backslash replacement in `normalizeMatchTarget`: its regex matches two
consecutive backslashes, so in a left-to-right scan each backslash pair
becomes a single `/` and a lone backslash survives unchanged. -/
def replaceBackslashPairs : List Char → List Char
  | [] => []
  | [c] => [c]
  | c :: d :: rest =>
    if c = '\\' ∧ d = '\\' then '/' :: replaceBackslashPairs rest
    else c :: replaceBackslashPairs (d :: rest)

/-- `normalizeMatchTarget` from exec-approvals.ts: backslash pairs become `/`,
then the string is lowercased (the regex `i` flag is absorbed by lowercasing
both sides). -/
def normalizeMatchTarget (value : String) : String :=
  ⟨lowerList (replaceBackslashPairs value.data)⟩

/-- `s.startsWith(p)` evaluated on the underlying character lists. -/
def strStartsWith (s p : String) : Bool :=
  p.data.isPrefixOf s.data

/-- `s.endsWith(p)` evaluated on the underlying character lists. -/
def strEndsWith (s p : String) : Bool :=
  p.data.reverse.isPrefixOf s.data.reverse

/-- `expandHome` from exec-approvals.ts, with the ambient `os.homedir()` passed
in explicitly; `path.join(home, rest)` is modelled as `home ++ "/" ++ rest`. -/
def expandHome (home value : String) : String :=
  if value = "" then value
  else if value = "~" then home
  else if strStartsWith value "~/" then home ++ "/" ++ ⟨value.data.drop 2⟩
  else value

/-- `matchesPattern` from exec-approvals.ts: trim the pattern, expand a leading
`~`, normalize both sides, then test the compiled glob. -/
def matchesPattern (home pattern target : String) : Bool :=
  let trimmed := jsTrim pattern
  if trimmed = "" then false
  else
    let expanded := if strStartsWith trimmed "~" then expandHome home trimmed else trimmed
    tokMatch (globCompile (normalizeMatchTarget expanded).data)
      (normalizeMatchTarget target).data

/-- `ExecAllowlistEntry` from exec-approvals.ts. -/
structure ExecAllowlistEntry where
  pattern : String
  lastUsedAt : Option Nat := none
  lastUsedCommand : Option String := none
  lastResolvedPath : Option String := none
deriving DecidableEq, Repr

/-- `CommandResolution` from exec-approvals.ts. -/
structure CommandResolution where
  rawExecutable : String
  resolvedPath : Option String := none
  executableName : String
deriving DecidableEq, Repr

/-- `pattern.includes("/") || pattern.includes("\\") || pattern.includes("~")`
from `matchAllowlist`. -/
def patternHasPathSep (pattern : String) : Bool :=
  pattern.data.any (fun c => c = '/' || c = '\\' || c = '~')

/-- The entry loop of `matchAllowlist`: first matching entry wins. -/
def matchAllowlistEntries (home : String) (r : CommandResolution) :
    List ExecAllowlistEntry → Option ExecAllowlistEntry
  | [] => none
  | e :: rest =>
    let pattern := jsTrim e.pattern
    if pattern = "" then matchAllowlistEntries home r rest
    else if patternHasPathSep pattern then
      let target := r.resolvedPath.getD r.rawExecutable
      if target != "" && matchesPattern home pattern target then some e
      else matchAllowlistEntries home r rest
    else
      if r.executableName != "" && matchesPattern home pattern r.executableName then some e
      else matchAllowlistEntries home r rest

/-- `matchAllowlist` from exec-approvals.ts: path-bearing patterns are matched
against the resolved absolute path (falling back to the raw executable); plain
patterns are matched against the executable basename. -/
def matchAllowlist (home : String) (entries : List ExecAllowlistEntry)
    (resolution : Option CommandResolution) : Option ExecAllowlistEntry :=
  match resolution with
  | none => none
  | some r => matchAllowlistEntries home r entries

theorem replaceBackslashPairs_lowerList :
    ∀ (n : Nat) (l : List Char), l.length ≤ n →
      replaceBackslashPairs (lowerList l) = lowerList (replaceBackslashPairs l) := by
  intro n
  induction n with
  | zero =>
    intro l hl
    match l with
    | [] => rfl
    | c :: l => simp at hl
  | succ n ih =>
    intro l hl
    match l with
    | [] => rfl
    | [c] => rfl
    | c :: d :: rest =>
      simp only [lowerList, List.map_cons, replaceBackslashPairs]
      by_cases hcd : c = '\\' ∧ d = '\\'
      · obtain ⟨rfl, rfl⟩ := hcd
        have hbl : ('\\').toLower = '\\' := by decide
        rw [hbl, if_pos ⟨rfl, rfl⟩, if_pos ⟨rfl, rfl⟩]
        have hih := ih rest (by simp at hl; omega)
        simp only [lowerList] at hih
        have hsl : ('/').toLower = '/' := by decide
        simp [List.map_cons, hih, hsl]
      · have hcd' : ¬(c.toLower = '\\' ∧ d.toLower = '\\') := by
          rintro ⟨h1, h2⟩
          by_cases hc : c = '\\'
          · by_cases hd : d = '\\'
            · exact hcd ⟨hc, hd⟩
            · exact char_toLower_ne_backslash d hd h2
          · exact char_toLower_ne_backslash c hc h1
        rw [if_neg hcd', if_neg hcd]
        have hih := ih (d :: rest) (by simp at hl ⊢; omega)
        simp only [lowerList, List.map_cons] at hih
        rw [hih, List.map_cons]

theorem normalizeMatchTarget_lowerList (t : String) :
    normalizeMatchTarget ⟨lowerList t.data⟩ = normalizeMatchTarget t := by
  unfold normalizeMatchTarget
  congr 1
  rw [show (⟨lowerList t.data⟩ : String).data = lowerList t.data from rfl,
    replaceBackslashPairs_lowerList t.data.length t.data (le_refl _)]
  unfold lowerList
  rw [List.map_map]
  refine List.map_congr_left ?_
  intro c _
  exact char_toLower_toLower c

/-! ### Claim C1: `matchAllowlist` glob semantics -/

/-- The compiled form of a pattern as `matchesPattern` builds it: trim,
`~`-expansion, normalization, then the `globToRegExp` loop. -/
def compiledPattern (home pat : String) : List GlobTok :=
  globCompile (normalizeMatchTarget
    (if strStartsWith (jsTrim pat) "~" then expandHome home (jsTrim pat)
     else jsTrim pat)).data

/-- The glob semantics exactly as the specification words them — the
refinement target of the original claim: `**` matches any characters
including path separators, `*` anything except `/`, `?` exactly one
character, and every other pattern character matches itself literally. -/
def SpecGlobMatch : List Char → List Char → Prop
  | [], t => t = []
  | '*' :: '*' :: p, t => ∃ t1 t2, t = t1 ++ t2 ∧ SpecGlobMatch p t2
  | '*' :: p, t => ∃ t1 t2, t = t1 ++ t2 ∧ (∀ c ∈ t1, c ≠ '/') ∧ SpecGlobMatch p t2
  | '?' :: p, t => ∃ d t2, t = d :: t2 ∧ SpecGlobMatch p t2
  | c :: p, t => ∃ t2, t = c :: t2 ∧ SpecGlobMatch p t2

/-- C1 counterexample: the escape step in `globToRegExp` never fires, so a
`.` in a pattern reaches the RegExp as the any-character atom: the code lets
entry `a.b` match executable name `axb`, although under the glob semantics
the claim states (every non-wildcard character literal) `a.b` does not match
`axb`. -/
theorem matchAllowlist_metachar_gap :
    matchAllowlist "" [{ pattern := "a.b" }]
        (some { rawExecutable := "axb", executableName := "axb" }) =
      some { pattern := "a.b" } ∧
    ¬ SpecGlobMatch "a.b".data "axb".data := by
  refine ⟨by decide, ?_⟩
  intro h
  simp [SpecGlobMatch] at h

/-- C1 (amended): `matchAllowlist` matches a pattern containing a path
separator (or `~`) against the resolved absolute path falling back to the
raw executable, otherwise against the executable basename; matching is
case-insensitive in the target; and for every pattern whose compiled form
contains no raw structural regex character, matching follows the
compiled-regex semantics: `**` matches any run of non-line-terminator
characters, path separators included; `*` matches any run without `/`; `?`
and a raw `.` match exactly one non-line-terminator character; every other
character matches itself; backslash pairs in pattern and target normalize to
`/`. Concretely `"RG"` matches executable `rg`, `/opt/*/rg` does not match
`/opt/homebrew/bin/rg`, and `/opt/**/rg` does. -/
theorem matchAllowlist_glob_semantics :
    (∀ (home : String) (e : ExecAllowlistEntry) (r : CommandResolution),
      jsTrim e.pattern ≠ "" →
      regexSimple (compiledPattern home e.pattern) = true →
      (matchAllowlist home [e] (some r) = some e ↔
        (if patternHasPathSep (jsTrim e.pattern) then
          r.resolvedPath.getD r.rawExecutable ≠ "" ∧
            matchesPattern home (jsTrim e.pattern) (r.resolvedPath.getD r.rawExecutable) = true
         else
          r.executableName ≠ "" ∧
            matchesPattern home (jsTrim e.pattern) r.executableName = true))) ∧
    (∀ (home pat target : String),
      regexSimple (compiledPattern home pat) = true →
      (matchesPattern home pat target = true ↔
        (jsTrim pat ≠ "" ∧
          TokSpec (compiledPattern home pat) (normalizeMatchTarget target).data))) ∧
    (∀ (home pat target : String),
      regexSimple (compiledPattern home pat) = true →
      matchesPattern home pat ⟨lowerList target.data⟩ = matchesPattern home pat target) ∧
    matchAllowlist "" [{ pattern := "RG" }]
      (some { rawExecutable := "rg", resolvedPath := some "/opt/homebrew/bin/rg",
              executableName := "rg" }) = some { pattern := "RG" } ∧
    matchAllowlist "" [{ pattern := "/opt/*/rg" }]
      (some { rawExecutable := "rg", resolvedPath := some "/opt/homebrew/bin/rg",
              executableName := "rg" }) = none ∧
    matchAllowlist "" [{ pattern := "/opt/**/rg" }]
      (some { rawExecutable := "rg", resolvedPath := some "/opt/homebrew/bin/rg",
              executableName := "rg" }) = some { pattern := "/opt/**/rg" } := by
  refine ⟨?_, ?_, ?_, by decide, by decide, by decide⟩
  · intro home e r hne hsimple
    by_cases hp : patternHasPathSep (jsTrim e.pattern)
    · simp only [matchAllowlist, matchAllowlistEntries, if_neg hne, if_pos hp, if_true]
      by_cases hm : (r.resolvedPath.getD r.rawExecutable != "" &&
          matchesPattern home (jsTrim e.pattern) (r.resolvedPath.getD r.rawExecutable)) = true
      · simp only [hm, if_true, if_pos hp]
        simp only [Bool.and_eq_true, bne_iff_ne, ne_eq] at hm
        simp [hm.1, hm.2]
      · simp only [Bool.not_eq_true] at hm
        simp only [hm, Bool.false_eq_true, if_false, if_pos hp]
        constructor
        · intro h; cases h
        · rintro ⟨h1, h2⟩
          exfalso
          rw [Bool.and_eq_false_iff] at hm
          rcases hm with hm | hm
          · exact h1 (by simpa using hm)
          · rw [h2] at hm; cases hm
    · simp only [matchAllowlist, matchAllowlistEntries, if_neg hne, if_neg hp]
      by_cases hm : (r.executableName != "" &&
          matchesPattern home (jsTrim e.pattern) r.executableName) = true
      · simp only [hm, if_true, if_neg hp]
        simp only [Bool.and_eq_true, bne_iff_ne, ne_eq] at hm
        simp [hm.1, hm.2]
      · simp only [Bool.not_eq_true] at hm
        simp only [hm, Bool.false_eq_true, if_false, if_neg hp]
        constructor
        · intro h; cases h
        · rintro ⟨h1, h2⟩
          exfalso
          rw [Bool.and_eq_false_iff] at hm
          rcases hm with hm | hm
          · exact h1 (by simpa using hm)
          · rw [h2] at hm; cases hm
  · intro home pat target hsimple
    by_cases ht : jsTrim pat = ""
    · simp [matchesPattern, compiledPattern, ht]
    · simp [matchesPattern, compiledPattern, ht, tokMatch_iff]
  · intro home pat target hsimple
    unfold matchesPattern
    rw [normalizeMatchTarget_lowerList]

theorem matchAllowlist_glob_semantics_witness :
    ("rg" : String) ≠ "" ∧ matchesPattern "" (jsTrim "RG") "rg" = true :=
  (matchAllowlist_glob_semantics.1 ""
    { pattern := "RG" }
    { rawExecutable := "rg", resolvedPath := some "/opt/homebrew/bin/rg",
      executableName := "rg" }
    (by decide) (by decide)).mp (by decide)

/-! ### Approvals file model (`exec-approvals.ts`) -/

/-- JS `??` on optional values. -/
def orOpt {α : Type} (a b : Option α) : Option α :=
  match a with
  | some x => some x
  | none => b

/-- `ExecApprovalsDefaults` from exec-approvals.ts (all fields optional). -/
structure ExecApprovalsDefaults where
  security : Option ExecSecurity := none
  ask : Option ExecAsk := none
  askFallback : Option ExecSecurity := none
  autoAllowSkills : Option Bool := none
deriving DecidableEq, Repr

/-- `ExecApprovalsAgent` from exec-approvals.ts: defaults plus an allowlist. -/
structure ExecApprovalsAgent where
  security : Option ExecSecurity := none
  ask : Option ExecAsk := none
  askFallback : Option ExecSecurity := none
  autoAllowSkills : Option Bool := none
  allowlist : Option (List ExecAllowlistEntry) := none
deriving DecidableEq, Repr

/-- The `socket` block of the approvals file. -/
structure ExecSocketConfig where
  path : Option String := none
  token : Option String := none
deriving DecidableEq, Repr

/-- `ExecApprovalsFile` from exec-approvals.ts; `version` is optional here
because `loadExecApprovals` must cope with arbitrary parsed JSON. The agents
record is an association list (first binding wins, as JS object keys are
unique). -/
structure ExecApprovalsFile where
  version : Option Nat := none
  socket : Option ExecSocketConfig := none
  defaults : Option ExecApprovalsDefaults := none
  agents : Option (List (String × ExecApprovalsAgent)) := none
deriving DecidableEq, Repr

/-- `value?.trim()` followed by the JS truthiness test
`value && value.length > 0 ? value : undefined`. -/
def trimToOption (value : Option String) : Option String :=
  match value.map jsTrim with
  | some t => if t.length > 0 then some t else none
  | none => none

/-- `normalizeExecApprovals` from exec-approvals.ts. -/
def normalizeExecApprovals (file : ExecApprovalsFile) : ExecApprovalsFile :=
  { version := some 1,
    socket := some { path := trimToOption (file.socket.bind (·.path)),
                     token := trimToOption (file.socket.bind (·.token)) },
    defaults := some { security := file.defaults.bind (·.security),
                       ask := file.defaults.bind (·.ask),
                       askFallback := file.defaults.bind (·.askFallback),
                       autoAllowSkills := file.defaults.bind (·.autoAllowSkills) },
    agents := some (file.agents.getD []) }

/-- The observable states of `~/.clawdbot/exec-approvals.json` as seen by
`loadExecApprovals`: absent, present but not valid JSON (`JSON.parse` throws),
or parsed into a value. -/
inductive ApprovalsFileState
  | missing
  | unparsable
  | parsed (file : ExecApprovalsFile)

/-- `loadExecApprovals` from exec-approvals.ts: a missing file, a JSON parse
failure (the surrounding `try`/`catch`), or a version other than `1` all
degrade to the normalized empty file. -/
def loadExecApprovals : ApprovalsFileState → ExecApprovalsFile
  | .missing => normalizeExecApprovals { version := some 1, agents := some [] }
  | .unparsable => normalizeExecApprovals { version := some 1, agents := some [] }
  | .parsed f =>
    if f.version = some 1 then normalizeExecApprovals f
    else normalizeExecApprovals { version := some 1, agents := some [] }

/-- `normalizeSecurity(value, fallback)` from exec-approvals.ts: on typed
values the enum test always passes, so a present value wins and `undefined`
falls back. -/
def normalizeSecurity (value : Option ExecSecurity) (fallback : ExecSecurity) : ExecSecurity :=
  value.getD fallback

/-- `normalizeAsk(value, fallback)` from exec-approvals.ts. -/
def normalizeAsk (value : Option ExecAsk) (fallback : ExecAsk) : ExecAsk :=
  value.getD fallback

/-- `ExecApprovalsDefaultOverrides` from exec-approvals.ts. -/
structure ExecApprovalsDefaultOverrides where
  security : Option ExecSecurity := none
  ask : Option ExecAsk := none
  askFallback : Option ExecSecurity := none
  autoAllowSkills : Option Bool := none
deriving DecidableEq, Repr

/-- `Required<ExecApprovalsDefaults>`: every scalar resolved. -/
structure ExecApprovalsResolvedDefaults where
  security : ExecSecurity
  ask : ExecAsk
  askFallback : ExecSecurity
  autoAllowSkills : Bool
deriving DecidableEq, Repr

/-- `file.agents?.[key] ?? {}`. -/
def lookupAgent (file : ExecApprovalsFile) (key : String) : ExecApprovalsAgent :=
  ((file.agents.getD []).lookup key).getD {}

/-- The fields of `ExecApprovalsResolved` that this development needs. -/
structure ExecApprovalsResolved where
  defaults : ExecApprovalsResolvedDefaults
  agent : ExecApprovalsResolvedDefaults
  allowlist : List ExecAllowlistEntry
  file : ExecApprovalsFile
deriving DecidableEq, Repr

/-- `resolveExecApprovals(agentId, overrides)` from exec-approvals.ts, with the
(already ensured) approvals file passed explicitly instead of read from disk. -/
def resolveExecApprovals (file : ExecApprovalsFile) (agentId : Option String)
    (overrides : Option ExecApprovalsDefaultOverrides) : ExecApprovalsResolved :=
  let defaults := file.defaults.getD {}
  let agentKey := agentId.getD "default"
  let agent := lookupAgent file agentKey
  let wildcard := lookupAgent file "*"
  let fallbackSecurity := (overrides.bind (·.security)).getD .deny
  let fallbackAsk := (overrides.bind (·.ask)).getD .onMiss
  let fallbackAskFallback := (overrides.bind (·.askFallback)).getD .deny
  let fallbackAutoAllowSkills := (overrides.bind (·.autoAllowSkills)).getD false
  let resolvedDefaults : ExecApprovalsResolvedDefaults :=
    { security := normalizeSecurity defaults.security fallbackSecurity,
      ask := normalizeAsk defaults.ask fallbackAsk,
      askFallback := normalizeSecurity defaults.askFallback fallbackAskFallback,
      autoAllowSkills := defaults.autoAllowSkills.getD fallbackAutoAllowSkills }
  let resolvedAgent : ExecApprovalsResolvedDefaults :=
    { security := normalizeSecurity (orOpt agent.security wildcard.security)
        resolvedDefaults.security,
      ask := normalizeAsk (orOpt agent.ask wildcard.ask) resolvedDefaults.ask,
      askFallback := normalizeSecurity (orOpt agent.askFallback wildcard.askFallback)
        resolvedDefaults.askFallback,
      autoAllowSkills := (orOpt agent.autoAllowSkills wildcard.autoAllowSkills).getD
        resolvedDefaults.autoAllowSkills }
  { defaults := resolvedDefaults,
    agent := resolvedAgent,
    allowlist := wildcard.allowlist.getD [] ++ agent.allowlist.getD [],
    file := file }

theorem orOpt_getD {α : Type} (a b : Option α) (c : α) :
    (orOpt a b).getD c = a.getD (b.getD c) := by
  cases a <;> rfl

/-! ### Claim C4: `resolveExecApprovals` composition -/

/-- C4: `resolveExecApprovals` composes defaults as
`file.defaults ⊕ overrides ⊕ hardcoded(deny, on-miss, deny, false)`, agent
scalars as `agents[agentId] ⊕ agents["*"] ⊕ defaults`, and the allowlist as
`agents["*"].allowlist ++ agents[agentId].allowlist`; concretely the wildcard
entry `/bin/hostname` precedes `main`'s `/usr/bin/uname`. -/
theorem resolveExecApprovals_composition :
    (∀ (file : ExecApprovalsFile) (agentId : Option String)
        (overrides : Option ExecApprovalsDefaultOverrides),
      let r := resolveExecApprovals file agentId overrides
      let agent := lookupAgent file (agentId.getD "default")
      let wildcard := lookupAgent file "*"
      (r.defaults.security =
          (orOpt (file.defaults.bind (·.security)) (overrides.bind (·.security))).getD .deny ∧
        r.defaults.ask =
          (orOpt (file.defaults.bind (·.ask)) (overrides.bind (·.ask))).getD .onMiss ∧
        r.defaults.askFallback =
          (orOpt (file.defaults.bind (·.askFallback)) (overrides.bind (·.askFallback))).getD .deny ∧
        r.defaults.autoAllowSkills =
          (orOpt (file.defaults.bind (·.autoAllowSkills))
            (overrides.bind (·.autoAllowSkills))).getD false) ∧
      (r.agent.security = (orOpt agent.security wildcard.security).getD r.defaults.security ∧
        r.agent.ask = (orOpt agent.ask wildcard.ask).getD r.defaults.ask ∧
        r.agent.askFallback =
          (orOpt agent.askFallback wildcard.askFallback).getD r.defaults.askFallback ∧
        r.agent.autoAllowSkills =
          (orOpt agent.autoAllowSkills wildcard.autoAllowSkills).getD r.defaults.autoAllowSkills) ∧
      r.allowlist = wildcard.allowlist.getD [] ++ agent.allowlist.getD []) ∧
    (resolveExecApprovals
      { version := some 1,
        agents := some [("*", { allowlist := some [{ pattern := "/bin/hostname" }] }),
                        ("main", { allowlist := some [{ pattern := "/usr/bin/uname" }] })] }
      (some "main") none).allowlist.map ExecAllowlistEntry.pattern =
      ["/bin/hostname", "/usr/bin/uname"] := by
  refine ⟨?_, by decide⟩
  intro file agentId overrides
  obtain ⟨v, sock, dflt, ags⟩ := file
  cases dflt <;> cases overrides <;>
    simp [resolveExecApprovals, normalizeSecurity, normalizeAsk, orOpt_getD]

/-! ### Claim C10: `loadExecApprovals` totality -/

/-- C10: for every state of the approvals file — missing, unparsable JSON, or
parsed content of any version — `loadExecApprovals` returns a normalized file
with `version = 1`, a socket object, a defaults object and an agents map, and
malformed input degrades to the normalized empty file. -/
theorem loadExecApprovals_total :
    ∀ st : ApprovalsFileState,
      (loadExecApprovals st).version = some 1 ∧
      (loadExecApprovals st).socket.isSome = true ∧
      (loadExecApprovals st).defaults.isSome = true ∧
      (loadExecApprovals st).agents.isSome = true ∧
      loadExecApprovals .missing =
        normalizeExecApprovals { version := some 1, agents := some [] } ∧
      loadExecApprovals .unparsable =
        normalizeExecApprovals { version := some 1, agents := some [] } ∧
      (∀ f : ExecApprovalsFile, f.version ≠ some 1 →
        loadExecApprovals (.parsed f) =
          normalizeExecApprovals { version := some 1, agents := some [] }) := by
  intro st
  refine ⟨?_, ?_, ?_, ?_, rfl, rfl, ?_⟩
  · cases st with
    | parsed f => by_cases hv : f.version = some 1 <;> simp [loadExecApprovals, hv, normalizeExecApprovals]
    | _ => rfl
  · cases st with
    | parsed f => by_cases hv : f.version = some 1 <;> simp [loadExecApprovals, hv, normalizeExecApprovals]
    | _ => rfl
  · cases st with
    | parsed f => by_cases hv : f.version = some 1 <;> simp [loadExecApprovals, hv, normalizeExecApprovals]
    | _ => rfl
  · cases st with
    | parsed f => by_cases hv : f.version = some 1 <;> simp [loadExecApprovals, hv, normalizeExecApprovals]
    | _ => rfl
  · intro f hv
    simp [loadExecApprovals, hv]

theorem loadExecApprovals_total_witness :
    loadExecApprovals (.parsed { version := some 2 }) =
      normalizeExecApprovals { version := some 1, agents := some [] } :=
  (loadExecApprovals_total .missing).2.2.2.2.2.2 { version := some 2 } (by decide)

/-! ### Exec tool gating (`src/agents/bash-tools.exec.ts`) -/

/-- `normalizeExecHost` from bash-tools.exec.ts. -/
def normalizeExecHost (value : Option String) : Option ExecHost :=
  match value with
  | none => none
  | some v =>
    let n := lowerTrim v
    if n = "sandbox" then some .sandbox
    else if n = "gateway" then some .gateway
    else if n = "node" then some .node
    else none

/-- `normalizeExecSecurity` from bash-tools.exec.ts. -/
def normalizeExecSecurity (value : Option String) : Option ExecSecurity :=
  match value with
  | none => none
  | some v =>
    let n := lowerTrim v
    if n = "deny" then some .deny
    else if n = "allowlist" then some .allowlist
    else if n = "full" then some .full
    else none

/-- `normalizeExecAsk` from bash-tools.exec.ts. -/
def normalizeExecAsk (value : Option String) : Option ExecAsk :=
  match value with
  | none => none
  | some v =>
    let n := lowerTrim v
    if n = "off" then some .off
    else if n = "on-miss" then some .onMiss
    else if n = "always" then some .always
    else none

/-- `ExecElevatedDefaults` from bash-tools.exec.ts; `defaultLevelOn` models
`defaultLevel === "on"`. -/
structure ExecElevatedDefaults where
  enabled : Bool
  allowed : Bool
  defaultLevelOn : Bool
deriving DecidableEq, Repr

/-- `elevatedRequested` in `createExecTool`: an explicit boolean
`params.elevated` wins, otherwise
`defaultLevel === "on" && enabled && allowed`. -/
def execElevatedRequested (elevatedDefaults : Option ExecElevatedDefaults)
    (paramsElevated : Option Bool) : Bool :=
  match paramsElevated with
  | some b => b
  | none =>
    match elevatedDefaults with
    | some d => d.defaultLevelOn && d.enabled && d.allowed
    | none => false

/-- The elevated/host/security/ask gating prefix of `createExecTool`'s
`execute` (bash-tools.exec.ts): the elevated gate may throw, a requested host
different from the configured one throws unless elevated, elevation forces
`host=gateway` and `security=full`, security composes through `minSecurity`
and ask through `maxAsk`. -/
def composeExecGates (elevatedDefaults : Option ExecElevatedDefaults)
    (paramsElevated : Option Bool) (configuredHost : Option ExecHost)
    (paramsHost : Option String) (configuredSecurity : Option ExecSecurity)
    (paramsSecurity : Option String) (configuredAsk : Option ExecAsk)
    (paramsAsk : Option String) : Except String (ExecHost × ExecSecurity × ExecAsk) :=
  let elevatedRequested := execElevatedRequested elevatedDefaults paramsElevated
  if elevatedRequested &&
      !(match elevatedDefaults with
        | some d => d.enabled && d.allowed
        | none => false) then
    .error "elevated is not available right now"
  else
    let cfgHost := configuredHost.getD .sandbox
    let requestedHost := normalizeExecHost paramsHost
    if !elevatedRequested && requestedHost.isSome && requestedHost != some cfgHost then
      .error "exec host not allowed"
    else
      let host := if elevatedRequested then ExecHost.gateway else requestedHost.getD cfgHost
      let cfgSecurity := configuredSecurity.getD
        (if host = .sandbox then .deny else .allowlist)
      let requestedSecurity := normalizeExecSecurity paramsSecurity
      let security :=
        if elevatedRequested then ExecSecurity.full
        else minSecurity cfgSecurity (requestedSecurity.getD cfgSecurity)
      let cfgAsk := configuredAsk.getD .onMiss
      let requestedAsk := normalizeExecAsk paramsAsk
      let ask := maxAsk cfgAsk (requestedAsk.getD cfgAsk)
      .ok (host, security, ask)

/-! ### Claim C2: effective security is a min, effective ask is a max -/

/-- C2: whenever the exec gates succeed, the effective security is
`minSecurity(configured, requested)` (order `deny < allowlist < full`), the
effective ask is `maxAsk(configured, requested)` (order
`off < on-miss < always`), and an elevated request forces `host=gateway` and
`security=full` regardless of the configured or requested values. -/
theorem composeExecGates_min_max :
    ∀ (ed : Option ExecElevatedDefaults) (pe : Option Bool) (ch : Option ExecHost)
      (ph : Option String) (cs : Option ExecSecurity) (ps : Option String)
      (ca : Option ExecAsk) (pa : Option String) (h : ExecHost) (s : ExecSecurity)
      (a : ExecAsk),
      composeExecGates ed pe ch ph cs ps ca pa = .ok (h, s, a) →
      (execElevatedRequested ed pe = false →
        s = minSecurity (cs.getD (if h = .sandbox then ExecSecurity.deny else .allowlist))
          ((normalizeExecSecurity ps).getD
            (cs.getD (if h = .sandbox then ExecSecurity.deny else .allowlist)))) ∧
      (execElevatedRequested ed pe = true → h = .gateway ∧ s = .full) ∧
      a = maxAsk (ca.getD .onMiss) ((normalizeExecAsk pa).getD (ca.getD .onMiss)) := by
  intro ed pe ch ph cs ps ca pa h s a hok
  unfold composeExecGates at hok
  by_cases he : execElevatedRequested ed pe = true
  · simp only [he] at hok
    split at hok
    · cases hok
    · simp only [Bool.not_true, Bool.false_and, Bool.false_eq_true, if_false, if_true,
        Except.ok.injEq, Prod.mk.injEq] at hok
      obtain ⟨hh, hs, ha⟩ := hok
      refine ⟨fun hc => ?_, fun _ => ⟨hh.symm, hs.symm⟩, ha.symm⟩
      rw [he] at hc
      exact Bool.noConfusion hc
  · simp only [Bool.not_eq_true] at he
    simp only [he, Bool.false_and, Bool.false_eq_true, if_false, Bool.not_false,
      Bool.true_and] at hok
    split at hok
    · cases hok
    · simp only [Except.ok.injEq, Prod.mk.injEq] at hok
      obtain ⟨hh, hs, ha⟩ := hok
      subst hh
      refine ⟨fun _ => hs.symm, fun hc => ?_, ha.symm⟩
      rw [he] at hc
      exact Bool.noConfusion hc

theorem composeExecGates_min_max_witness :
    ExecAsk.always = maxAsk ((none : Option ExecAsk).getD .onMiss)
      ((normalizeExecAsk (some "always")).getD ((none : Option ExecAsk).getD .onMiss)) :=
  (composeExecGates_min_max none none none none none (some "full") none (some "always")
    .sandbox .deny .always rfl).2.2

/-! ### Gateway approval gate (`bash-tools.exec.ts`, host=gateway block) -/

/-- `ExecApprovalDecision` from exec-approvals.ts:
`"allow-once" | "allow-always" | "deny"`. -/
inductive ExecApprovalDecision
  | allowOnce
  | allowAlways
  | deny
deriving DecidableEq, Repr

/-- Outcome of the gateway approval gate: either the command may proceed to
spawn, or it is denied with the thrown error message. -/
inductive ExecGateOutcome
  | permit
  | denied (msg : String)
deriving DecidableEq, Repr

/-- `requiresAsk` in the host=gateway block:
`hostAsk === "always" || (hostAsk === "on-miss" && hostSecurity === "allowlist" && !allowlistMatch)`. -/
def gatewayRequiresAsk (hostSecurity : ExecSecurity) (hostAsk : ExecAsk)
    (matchFound : Bool) : Bool :=
  let allowlistMatch := hostSecurity = ExecSecurity.allowlist && matchFound
  hostAsk = ExecAsk.always || (hostAsk = ExecAsk.onMiss &&
    hostSecurity = ExecSecurity.allowlist && !allowlistMatch)

/-- The host=gateway approval pipeline of `createExecTool` (deny short-circuit,
ask round-trip outcome, `askFallback` handling on a null decision, and the
final allowlist-miss check). `matchFound` records whether `matchAllowlist`
found an entry; as in the source the match is only consulted when
`hostSecurity === "allowlist"`. `decision` is `none` when no responder answered
within the timeout. -/
def gatewayApprovalGate (hostSecurity : ExecSecurity) (hostAsk : ExecAsk)
    (askFallback : ExecSecurity) (matchFound : Bool)
    (decision : Option ExecApprovalDecision) : ExecGateOutcome :=
  if hostSecurity = ExecSecurity.deny then .denied "exec denied: host=gateway security=deny"
  else
    let allowlistMatch := hostSecurity = ExecSecurity.allowlist && matchFound
    let requiresAsk := gatewayRequiresAsk hostSecurity hostAsk matchFound
    let afterAsk : Except String Bool :=
      if requiresAsk then
        match decision with
        | some .deny => .error "exec denied: user denied"
        | none =>
          if askFallback = ExecSecurity.full then .ok true
          else if askFallback = ExecSecurity.allowlist then
            if !allowlistMatch then
              .error "exec denied: approval required (approval UI not available)"
            else .ok true
          else .error "exec denied: approval required (approval UI not available)"
        | some .allowOnce => .ok true
        | some .allowAlways => .ok true
      else .ok false
    match afterAsk with
    | .error msg => .denied msg
    | .ok approvedByAsk =>
      if hostSecurity = ExecSecurity.allowlist && !allowlistMatch && !approvedByAsk then
        .denied "exec denied: allowlist miss"
      else .permit

/-! ### Claim C3: null-decision fallback per `askFallback` -/

/-- C3 counterexample: with effective security `full` and `ask=always`, the
source computes `allowlistMatch` only when `hostSecurity === "allowlist"`,
so on a null decision `askFallback=allowlist` denies even though the
allowlist does match the command resolution — where the claim as stated
says the command is permitted. -/
theorem gatewayApprovalGate_full_allowlist_gap :
    (matchAllowlist "" [{ pattern := "rg" }]
      (some { rawExecutable := "rg", resolvedPath := some "/opt/homebrew/bin/rg",
              executableName := "rg" })).isSome = true ∧
    gatewayRequiresAsk .full .always
      (matchAllowlist "" [{ pattern := "rg" }]
        (some { rawExecutable := "rg", resolvedPath := some "/opt/homebrew/bin/rg",
                executableName := "rg" })).isSome = true ∧
    gatewayApprovalGate .full .always .allowlist
      (matchAllowlist "" [{ pattern := "rg" }]
        (some { rawExecutable := "rg", resolvedPath := some "/opt/homebrew/bin/rg",
                executableName := "rg" })).isSome none =
      .denied "exec denied: approval required (approval UI not available)" :=
  ⟨by decide, by decide, by decide⟩

/-- C3 (amended): when an approval request is required and ends with a null
decision (no responder within the timeout), the gateway exec gate falls back
per `askFallback`: `full` permits; `allowlist` permits exactly when the
effective security is `allowlist` and the allowlist matched the command
resolution — when the effective security is `full` the allowlist is not
consulted and the request is denied — and otherwise denies; any other value
denies; an explicit deny decision always denies. -/
theorem gatewayApprovalGate_askFallback :
    ∀ (sec : ExecSecurity) (ask : ExecAsk) (fb : ExecSecurity) (home : String)
      (al : List ExecAllowlistEntry) (res : Option CommandResolution),
      sec ≠ .deny →
      gatewayRequiresAsk sec ask (matchAllowlist home al res).isSome = true →
      (gatewayApprovalGate sec ask fb (matchAllowlist home al res).isSome none =
        (if fb = .full then .permit
         else if fb = .allowlist then
           (if sec = ExecSecurity.allowlist && (matchAllowlist home al res).isSome then
              ExecGateOutcome.permit
            else .denied "exec denied: approval required (approval UI not available)")
         else .denied "exec denied: approval required (approval UI not available)")) ∧
      gatewayApprovalGate sec ask fb (matchAllowlist home al res).isSome (some .deny) =
        .denied "exec denied: user denied" := by
  intro sec ask fb home al res
  generalize (matchAllowlist home al res).isSome = b
  revert sec ask fb b
  decide

theorem gatewayApprovalGate_askFallback_witness :
    gatewayApprovalGate .allowlist .onMiss .full
        (matchAllowlist "" [] (some { rawExecutable := "rg", executableName := "rg" })).isSome
        none =
      (if ExecSecurity.full = .full then ExecGateOutcome.permit
       else if ExecSecurity.full = .allowlist then
         (if ExecSecurity.allowlist = ExecSecurity.allowlist &&
              (matchAllowlist "" [] (some { rawExecutable := "rg", executableName := "rg" })).isSome then
            ExecGateOutcome.permit
          else .denied "exec denied: approval required (approval UI not available)")
       else .denied "exec denied: approval required (approval UI not available)") :=
  (gatewayApprovalGate_askFallback .allowlist .onMiss .full ""
    [] (some { rawExecutable := "rg", executableName := "rg" })
    (by decide) (by decide)).1

/-! ### Exec session cancellation (`bash-tools.exec.ts`) -/

/-- The slice of a `ProcessSession` relevant to cancellation. -/
structure ProcSession where
  backgrounded : Bool
  killed : Bool
deriving DecidableEq, Repr

/-- Modelled from the spec: `killSession` (defined in bash-tools.shared.ts,
whose source is not in the tree) kills the exec session's child process. -/
def killSession (s : ProcSession) : ProcSession :=
  { s with killed := true }

/-- `markBackgrounded` (bash-process-registry.ts): the session yields and keeps
running in the background. -/
def markBackgrounded (s : ProcSession) : ProcSession :=
  { s with backgrounded := true }

/-- `onAbortSignal` from bash-tools.exec.ts: a tool-call abort kills the child
only when the call has not yielded and the session is not backgrounded. -/
def onAbortSignal (yielded : Bool) (s : ProcSession) : ProcSession :=
  if yielded || s.backgrounded then s else killSession s

/-- `onTimeout` from bash-tools.exec.ts: a timeout kills unconditionally. -/
def onTimeout (s : ProcSession) : ProcSession :=
  killSession s

/-! ### Claim C7: abort never kills a backgrounded session, timeout always kills -/

/-- C7: once a session is backgrounded (or its call has yielded), a tool-call
abort signal leaves it untouched — in particular it never kills it — while a
timeout kills the child whether or not the session was backgrounded. -/
theorem abort_background_timeout_kill :
    ∀ (s : ProcSession) (yielded : Bool),
      (s.backgrounded = true ∨ yielded = true → onAbortSignal yielded s = s) ∧
      (onTimeout s).killed = true ∧
      (onTimeout (markBackgrounded s)).killed = true ∧
      (s.backgrounded = false → yielded = false →
        onAbortSignal yielded s = killSession s) := by
  intro s yielded
  refine ⟨?_, rfl, rfl, ?_⟩
  · intro h
    rcases h with h | h <;> simp [onAbortSignal, h]
  · intro hb hy
    simp [onAbortSignal, hb, hy]

theorem abort_background_timeout_kill_witness :
    onAbortSignal false { backgrounded := true, killed := false } =
      { backgrounded := true, killed := false } :=
  (abort_background_timeout_kill { backgrounded := true, killed := false } false).1
    (Or.inl rfl)

/-! ### SSRF guard (`src/infra/net/ssrf.ts`) -/

/-- `PRIVATE_IPV6_PREFIXES` from ssrf.ts. -/
def PRIVATE_IPV6_PREFIXES : List String := ["fe80:", "fec0:", "fc", "fd"]

/-- `normalizeHostname` from ssrf.ts: trim, lowercase, strip one trailing dot,
strip surrounding brackets. -/
def normalizeHostname (hostname : String) : String :=
  let n := lowerTrim hostname
  let n1 : String := if strEndsWith n "." then ⟨n.data.dropLast⟩ else n
  if strStartsWith n1 "[" && strEndsWith n1 "]" then ⟨(n1.data.drop 1).dropLast⟩ else n1

/-- `isBlockedHostname` from ssrf.ts. -/
def isBlockedHostname (hostname : String) : Bool :=
  let normalized := normalizeHostname hostname
  if normalized = "" then false
  else if normalized = "localhost" ∨ normalized = "metadata.google.internal" then true
  else strEndsWith normalized ".localhost" || strEndsWith normalized ".local" ||
    strEndsWith normalized ".internal"

/-- `parseIpv4` from ssrf.ts: split on dots, exactly four `parseInt`-parsed
parts, each in `0..255`. -/
def parseIpv4 (address : String) : Option (List Nat) :=
  let parts := splitOnChar '.' address.data
  if parts.length ≠ 4 then none
  else
    let numbers := parts.map (fun p => jsParseIntDec ⟨p⟩)
    if numbers.any (fun n =>
        match n with
        | none => true
        | some v => v < 0 || v > 255) then none
    else some (numbers.map (fun n => (n.getD 0).toNat))

/-- `parseIpv4FromMappedIpv6` from ssrf.ts: dotted payloads reparse as IPv4;
one hex group is the 32-bit value; two hex groups are its high and low halves.
The byte extraction `(value >>> 24) & 0xff, …` is computed on the exact sum,
which yields the same four bytes as the JS 32-bit operators. -/
def parseIpv4FromMappedIpv6 (mapped : String) : Option (List Nat) :=
  if mapped.data.any (fun c => c = '.') then parseIpv4 mapped
  else
    let parts := (splitOnChar ':' mapped.data).filter (fun p => !p.isEmpty)
    match parts with
    | [p0] =>
      match jsParseIntHex ⟨p0⟩ with
      | none => none
      | some v =>
        if v < 0 || v > 0xffffffff then none
        else
          let n := v.toNat
          some [n / 2 ^ 24 % 256, n / 2 ^ 16 % 256, n / 2 ^ 8 % 256, n % 256]
    | [p0, p1] =>
      match jsParseIntHex ⟨p0⟩, jsParseIntHex ⟨p1⟩ with
      | some hi, some lo =>
        if hi < 0 || lo < 0 || hi > 0xffff || lo > 0xffff then none
        else
          let n := hi.toNat * 65536 + lo.toNat
          some [n / 2 ^ 24 % 256, n / 2 ^ 16 % 256, n / 2 ^ 8 % 256, n % 256]
      | _, _ => none
    | _ => none

/-- `isPrivateIpv4` from ssrf.ts. -/
def isPrivateIpv4 (parts : List Nat) : Bool :=
  match parts with
  | o1 :: o2 :: _ =>
    if o1 = 0 then true
    else if o1 = 10 then true
    else if o1 = 127 then true
    else if o1 = 169 ∧ o2 = 254 then true
    else if o1 = 172 ∧ 16 ≤ o2 ∧ o2 ≤ 31 then true
    else if o1 = 192 ∧ o2 = 168 then true
    else if o1 = 100 ∧ 64 ≤ o2 ∧ o2 ≤ 127 then true
    else false
  | _ => false

/-- The normalization prefix of `isPrivateIpAddress`: trim, lowercase, strip
surrounding brackets. -/
def ipNormalize (address : String) : String :=
  let n := lowerTrim address
  if strStartsWith n "[" && strEndsWith n "]" then ⟨(n.data.drop 1).dropLast⟩ else n

/-- The body of `isPrivateIpAddress` after normalization: the IPv4-mapped
branch, the IPv6 branch (`::`, `::1`, private textual prefixes), then plain
IPv4 parsing. -/
def ipPrivCheck (normalized : String) : Bool :=
  if normalized = "" then false
  else
    match (if strStartsWith normalized "::ffff:" then
             (parseIpv4FromMappedIpv6 ⟨normalized.data.drop 7⟩).map isPrivateIpv4
           else none) with
    | some b => b
    | none =>
      if normalized.data.any (fun c => c = ':') then
        if normalized = "::" ∨ normalized = "::1" then true
        else PRIVATE_IPV6_PREFIXES.any (fun p => strStartsWith normalized p)
      else
        match parseIpv4 normalized with
        | none => false
        | some ip => isPrivateIpv4 ip

/-- `isPrivateIpAddress` from ssrf.ts. -/
def isPrivateIpAddress (address : String) : Bool :=
  ipPrivCheck (ipNormalize address)

/-- Result of `assertPublicHostname`: `blockedHostname`, `blockedPrivateIp` and
`blockedResolved` model the thrown `SsrFBlockedError`s; `invalidHostname` and
`unresolvable` model the plain `Error`s. -/
inductive SsrfCheckResult
  | ok
  | invalidHostname
  | blockedHostname
  | blockedPrivateIp
  | unresolvable
  | blockedResolved
deriving DecidableEq, Repr

/-- `assertPublicHostname` from ssrf.ts, with the DNS `lookupFn` passed
explicitly (as in the source signature); `lookup` returns all resolved
addresses. -/
def assertPublicHostname (hostname : String) (lookup : String → List String) :
    SsrfCheckResult :=
  let normalized := normalizeHostname hostname
  if normalized = "" then .invalidHostname
  else if isBlockedHostname normalized then .blockedHostname
  else if isPrivateIpAddress normalized then .blockedPrivateIp
  else
    let results := lookup normalized
    if results.isEmpty then .unresolvable
    else if results.any isPrivateIpAddress then .blockedResolved
    else .ok

theorem strStartsWith_colon_any (n : String) (h : strStartsWith n "::ffff:" = true) :
    n.data.any (fun c => c = ':') = true := by
  rw [strStartsWith, List.isPrefixOf_iff_prefix] at h
  obtain ⟨t, ht⟩ := h
  rw [← ht]
  simp

theorem mk_ne_empty (c : Char) (l : List Char) : (⟨c :: l⟩ : String) ≠ "" := by
  intro h
  rw [String.ext_iff] at h
  have hd : ("" : String).data = [] := rfl
  rw [hd] at h
  cases h

theorem mk_ne_of_head (c : Char) (l : List Char) (q : String) (c' : Char)
    (hq : q.data.head? = some c') (hc : c ≠ c') : (⟨c :: l⟩ : String) ≠ q := by
  intro h
  rw [String.ext_iff] at h
  rw [← h] at hq
  simp at hq
  exact hc hq

theorem strStartsWith_head_ne (c : Char) (l : List Char) (q : String) (c' : Char)
    (q' : List Char) (hq : q.data = c' :: q') (hc : c' ≠ c) :
    strStartsWith ⟨c :: l⟩ q = false := by
  rw [strStartsWith, hq]
  simp [List.isPrefixOf, beq_eq_false_iff_ne.mpr hc]

theorem prefix_head_cons (n : String) (p : String) (c : Char)
    (hpre : strStartsWith n p = true) (hc : p.data.head? = some c) :
    ∃ l, n.data = c :: l := by
  rw [strStartsWith, List.isPrefixOf_iff_prefix] at hpre
  obtain ⟨t, ht⟩ := hpre
  match hpd : p.data with
  | [] => rw [hpd] at hc; cases hc
  | c0 :: ps =>
    rw [hpd] at hc
    simp at hc
    subst hc
    rw [hpd] at ht
    exact ⟨ps ++ t, ht.symm⟩

theorem ipPrivCheck_prefix (nd : List Char) (p : String)
    (hp : p ∈ PRIVATE_IPV6_PREFIXES) (hpre : strStartsWith ⟨nd⟩ p = true)
    (hcolon : nd.any (fun c => c = ':') = true) :
    ipPrivCheck ⟨nd⟩ = true := by
  have hpf : p.data.head? = some 'f' := by
    fin_cases hp <;> decide
  obtain ⟨l, hl⟩ := prefix_head_cons ⟨nd⟩ p 'f' hpre hpf
  simp only [String.data] at hl
  subst hl
  have h1 : (⟨'f' :: l⟩ : String) ≠ "" := mk_ne_empty 'f' l
  have h2 : strStartsWith ⟨'f' :: l⟩ "::ffff:" = false :=
    strStartsWith_head_ne 'f' l "::ffff:" ':' (("::ffff:".data.tail)) rfl (by decide)
  have h3 : (⟨'f' :: l⟩ : String) ≠ "::" :=
    mk_ne_of_head 'f' l "::" ':' rfl (by decide)
  have h4 : (⟨'f' :: l⟩ : String) ≠ "::1" :=
    mk_ne_of_head 'f' l "::1" ':' rfl (by decide)
  rw [ipPrivCheck]
  rw [if_neg h1, h2]
  simp only [Bool.false_eq_true, if_false]
  rw [hcolon]
  simp only [if_true]
  rw [if_neg (by rw [not_or]; exact ⟨h3, h4⟩)]
  exact List.any_eq_true.mpr ⟨p, hp, hpre⟩

theorem ipPrivCheck_mapped (n : String) (q : List Nat)
    (hpre : strStartsWith n "::ffff:" = true)
    (hq : parseIpv4FromMappedIpv6 ⟨n.data.drop 7⟩ = some q) :
    ipPrivCheck n = isPrivateIpv4 q := by
  have hne : n ≠ "" := by
    intro hz
    rw [hz] at hpre
    exact absurd hpre (by decide)
  rw [ipPrivCheck, if_neg hne, hpre]
  simp only [if_true, hq]
  rfl

theorem ipPrivCheck_ipv4 (n : String) (a b : Nat) (rest : List Nat)
    (hnc : n.data.any (fun c => c = ':') = false)
    (hp : parseIpv4 n = some (a :: b :: rest))
    (hrange : a = 0 ∨ a = 10 ∨ a = 127 ∨ (a = 169 ∧ b = 254) ∨
      (a = 172 ∧ 16 ≤ b ∧ b ≤ 31) ∨ (a = 192 ∧ b = 168) ∨
      (a = 100 ∧ 64 ≤ b ∧ b ≤ 127)) :
    ipPrivCheck n = true := by
  have hne : n ≠ "" := by
    intro hz
    have hz0 : parseIpv4 "" = none := by decide
    rw [hz, hz0] at hp
    cases hp
  have hmapped : strStartsWith n "::ffff:" = false := by
    cases hsw : strStartsWith n "::ffff:" with
    | false => rfl
    | true => exact absurd (strStartsWith_colon_any n hsw) (by rw [hnc]; simp)
  rw [ipPrivCheck, if_neg hne, hmapped]
  simp only [Bool.false_eq_true, if_false]
  rw [hnc]
  simp only [Bool.false_eq_true, if_false, hp]
  rcases hrange with rfl | rfl | rfl | ⟨rfl, rfl⟩ | ⟨rfl, h16, h31⟩ | ⟨rfl, rfl⟩ |
      ⟨rfl, h64, h127⟩ <;>
    simp_all [isPrivateIpv4]

/-! ### Claim C6: SSRF guard coverage -/

/-- Membership of an IPv6 literal's leading 16-bit group in fe80::/10: the top
ten bits agree with those of fe80. -/
def inFe80Slash10 (g : Nat) : Prop := g / 64 = 0xfe80 / 64

/-- Leading 16-bit group of an IPv6 literal: the hexadecimal digits before the
first colon. -/
def ipv6FirstGroup (address : String) : Option Nat :=
  let ds := address.data.takeWhile (fun c => c ≠ ':')
  if ds.isEmpty || ds.any (fun c => !isHexDigit c) then none
  else some (hexDigitsVal ds)

/-- C6 counterexample: `fe81::1` is an IPv6 literal inside fe80::/10, yet
`isPrivateIpAddress` returns `false` for it and `assertPublicHostname` accepts
it (DNS lookup of an IP literal returns the literal itself): the textual check
`startsWith("fe80:")` covers only the first 1/64th of fe80::/10, and
`startsWith("fec0:")` likewise misses most of fec0::/10. -/
theorem assertPublicHostname_fe80_gap :
    ipv6FirstGroup "fe81::1" = some 0xfe81 ∧
    inFe80Slash10 0xfe81 ∧
    isPrivateIpAddress "fe81::1" = false ∧
    assertPublicHostname "fe81::1" (fun s => [s]) = .ok :=
  ⟨by decide, by unfold inFe80Slash10; decide, by decide, by decide⟩

/-- C6 (amended): `assertPublicHostname` rejects with a blocked error every
hostname that normalizes into the blocked families (`localhost`,
`*.localhost`, `*.local`, `*.internal`, `metadata.google.internal`) and every
IP literal it classifies as private: dotted-quad IPv4 literals in 0/8, 10/8,
127/8, 169.254/16, 172.16/12, 192.168/16 and 100.64/10; the IPv6 literals `::`
and `::1`; IPv6 literals whose lowercased text starts with `fe80:`, `fec0:`,
`fc` or `fd`; and IPv4-mapped `::ffff:` literals re-checked under the IPv4
rules. -/
theorem assertPublicHostname_blocks :
    (∀ (s : String) (lookup : String → List String),
      isBlockedHostname (normalizeHostname s) = true →
      assertPublicHostname s lookup = .blockedHostname) ∧
    (∀ s : String,
      isBlockedHostname s = true ↔
        (normalizeHostname s ≠ "" ∧
          (normalizeHostname s = "localhost" ∨
           normalizeHostname s = "metadata.google.internal" ∨
           strEndsWith (normalizeHostname s) ".localhost" = true ∨
           strEndsWith (normalizeHostname s) ".local" = true ∨
           strEndsWith (normalizeHostname s) ".internal" = true))) ∧
    (∀ (s : String) (lookup : String → List String),
      isBlockedHostname (normalizeHostname s) = false →
      isPrivateIpAddress (normalizeHostname s) = true →
      normalizeHostname s ≠ "" →
      assertPublicHostname s lookup = .blockedPrivateIp) ∧
    (∀ (s : String) (a b : Nat) (rest : List Nat),
      (ipNormalize s).data.any (fun c => c = ':') = false →
      parseIpv4 (ipNormalize s) = some (a :: b :: rest) →
      (a = 0 ∨ a = 10 ∨ a = 127 ∨ (a = 169 ∧ b = 254) ∨ (a = 172 ∧ 16 ≤ b ∧ b ≤ 31) ∨
        (a = 192 ∧ b = 168) ∨ (a = 100 ∧ 64 ≤ b ∧ b ≤ 127)) →
      isPrivateIpAddress s = true) ∧
    (∀ s : String, ipNormalize s = "::" ∨ ipNormalize s = "::1" →
      isPrivateIpAddress s = true) ∧
    (∀ (s p : String), p ∈ PRIVATE_IPV6_PREFIXES →
      strStartsWith (ipNormalize s) p = true →
      (ipNormalize s).data.any (fun c => c = ':') = true →
      isPrivateIpAddress s = true) ∧
    (∀ (s : String) (q : List Nat),
      strStartsWith (ipNormalize s) "::ffff:" = true →
      parseIpv4FromMappedIpv6 ⟨(ipNormalize s).data.drop 7⟩ = some q →
      isPrivateIpAddress s = isPrivateIpv4 q) := by
  refine ⟨?_, ?_, ?_, ?_, ?_, ?_, ?_⟩
  · intro s lookup hb
    by_cases hz : normalizeHostname s = ""
    · rw [hz] at hb
      exact absurd hb (by decide)
    · rw [assertPublicHostname, if_neg hz, if_pos hb]
  · intro s
    by_cases hz : normalizeHostname s = ""
    · simp [isBlockedHostname, hz]
    · by_cases hset : normalizeHostname s = "localhost" ∨
          normalizeHostname s = "metadata.google.internal"
      · rcases hset with h | h <;> simp [isBlockedHostname, hz, h]
      · obtain ⟨h1, h2⟩ := not_or.mp hset
        simp [isBlockedHostname, hz, h1, h2]
        exact or_assoc
  · intro s lookup hb hpriv hz
    have hb' : ¬ isBlockedHostname (normalizeHostname s) = true := by
      rw [hb]; exact Bool.false_ne_true
    rw [assertPublicHostname, if_neg hz, if_neg hb', if_pos hpriv]
  · intro s a b rest h1 h2 h3
    unfold isPrivateIpAddress
    exact ipPrivCheck_ipv4 (ipNormalize s) a b rest h1 h2 h3
  · intro s h
    unfold isPrivateIpAddress
    rcases h with h | h <;> rw [h] <;> decide
  · intro s p hp hpre hcolon
    unfold isPrivateIpAddress
    exact ipPrivCheck_prefix (ipNormalize s).data p hp hpre hcolon
  · intro s q hpre hq
    unfold isPrivateIpAddress
    exact ipPrivCheck_mapped (ipNormalize s) q hpre hq

theorem assertPublicHostname_blocks_witness :
    isPrivateIpAddress "10.0.0.1" = true :=
  assertPublicHostname_blocks.2.2.2.1 "10.0.0.1" 10 0 [0, 1] (by decide) (by decide)
    (Or.inr (Or.inl rfl))

/-! ### Session model overrides (session-reset-model.ts, modelled) -/

/-- The session-store entry fields involved in model and auth-profile
overrides (spec §3, Session entity). -/
structure SessionEntry where
  sessionId : String
  updatedAt : Nat
  providerOverride : Option String := none
  modelOverride : Option String := none
  authProfileOverride : Option String := none
  authProfileOverrideSource : Option String := none
  authProfileOverrideCompactionCount : Option Nat := none
deriving DecidableEq, Repr

/-- Modelled from the spec: `applyResetModelOverride` (session-reset-model.ts,
whose implementation is not in the tree; behaviour fixed by §3 of the spec and
its tests). With `resetTriggered=false` the entry is untouched. With
`resetTriggered=true` and a model hint resolving to `(provider, model)`, both
overrides are set together and the auth-profile override is cleared together
with its source and compaction counter. -/
def applyResetModelOverride (entry : SessionEntry) (resetTriggered : Bool)
    (selection : Option (String × String)) : SessionEntry :=
  if !resetTriggered then entry
  else
    match selection with
    | none => entry
    | some pm =>
      { entry with
        providerOverride := some pm.1,
        modelOverride := some pm.2,
        authProfileOverride := none,
        authProfileOverrideSource := none,
        authProfileOverrideCompactionCount := none }

/-! ### Claim C8: override invariants of the model reset -/

/-- C8: `providerOverride` and `modelOverride` are set or cleared together by
the reset operation; a reset that selects a model always clears the
auth-profile override together with its source and compaction counter; and
with `resetTriggered=false` the session entry is left unchanged. -/
theorem applyResetModelOverride_invariants :
    ∀ (entry : SessionEntry) (resetTriggered : Bool)
      (selection : Option (String × String)),
      (resetTriggered = false →
        applyResetModelOverride entry resetTriggered selection = entry) ∧
      (∀ provider model,
        resetTriggered = true → selection = some (provider, model) →
        (applyResetModelOverride entry resetTriggered selection).providerOverride =
            some provider ∧
          (applyResetModelOverride entry resetTriggered selection).modelOverride =
            some model ∧
          (applyResetModelOverride entry resetTriggered selection).authProfileOverride =
            none ∧
          (applyResetModelOverride entry resetTriggered
              selection).authProfileOverrideSource = none ∧
          (applyResetModelOverride entry resetTriggered
              selection).authProfileOverrideCompactionCount = none) ∧
      ((entry.providerOverride.isSome ↔ entry.modelOverride.isSome) →
        ((applyResetModelOverride entry resetTriggered
            selection).providerOverride.isSome ↔
          (applyResetModelOverride entry resetTriggered
            selection).modelOverride.isSome)) := by
  intro entry rt sel
  refine ⟨?_, ?_, ?_⟩
  · intro h
    subst h
    rfl
  · intro p m hrt hsel
    subst hrt
    subst hsel
    simp [applyResetModelOverride]
  · intro hinv
    cases rt with
    | false => simpa [applyResetModelOverride] using hinv
    | true =>
      cases sel with
      | none => simpa [applyResetModelOverride] using hinv
      | some pm => simp [applyResetModelOverride]

theorem applyResetModelOverride_invariants_witness :
    applyResetModelOverride { sessionId := "s1", updatedAt := 0 } false
      (some ("minimax", "m2.1")) = { sessionId := "s1", updatedAt := 0 } :=
  (applyResetModelOverride_invariants { sessionId := "s1", updatedAt := 0 } false
    (some ("minimax", "m2.1"))).1 rfl

/-! ### Push-to-transport event mapping (MacGatewayChatTransport, modelled) -/

/-- Untyped JSON payload values: the tagged sum behind `AnyCodable`. -/
inductive JsonValue
  | null
  | bool (b : Bool)
  | num (n : Int)
  | str (s : String)
  | arr (xs : List JsonValue)
  | obj (fields : List (String × JsonValue))

/-- Boolean field access on a payload object (`payload.ok` as a `Bool`). -/
def getBoolField (v : JsonValue) (key : String) : Option Bool :=
  match v with
  | .obj fields =>
    match fields.lookup key with
    | some (.bool b) => some b
    | _ => none
  | _ => none

/-- String field access on a payload object. -/
def getStrField (v : JsonValue) (key : String) : Option String :=
  match v with
  | .obj fields =>
    match fields.lookup key with
    | some (.str s) => some s
    | _ => none
  | _ => none

/-- The `snapshot` block of `HelloOk` (only the health map is relevant to the
mapping rules). -/
structure GatewaySnapshot where
  health : JsonValue

/-- The `HelloOk` frame carried by `push.snapshot`. -/
structure HelloOk where
  snapshot : GatewaySnapshot

/-- An `event` frame: `{ event, payload?, seq }`. -/
structure EventFrame where
  event : String
  payload : Option JsonValue
  seq : Nat

/-- Server→client pushes as seen by the transport mapper. -/
inductive PushFrame
  | snapshot (hello : HelloOk)
  | event (frame : EventFrame)
  | seqGap (expected received : Nat)

/-- The `chat` transport event payload `{ runId, sessionKey, state }`. -/
structure ChatEventPayload where
  runId : String
  sessionKey : String
  state : String
deriving DecidableEq, Repr

/-- Transport events produced by the mapper. -/
inductive TransportEvent
  | health (ok : Bool)
  | tick
  | chat (c : ChatEventPayload)
  | seqGap (expected received : Nat)
deriving DecidableEq, Repr

/-- Modelled from the spec: `MacGatewayChatTransport.mapPushToTransportEvent`
(Swift implementation not in the tree; behaviour fixed by the mapping rules of
spec §6 and MacGatewayChatTransportMappingTests.swift): `push.snapshot` with
`snapshot.health.ok = b` maps to `health(b)`; `event:"health"` with
`payload.ok = b` maps to `health(b)`; `event:"tick"` maps to `tick`;
`event:"chat"` maps to the chat event; unknown events are dropped (`none`);
`seqGap` maps to `seqGap{expected, received}`. -/
def mapPushToTransportEvent : PushFrame → Option TransportEvent
  | .snapshot hello =>
    match getBoolField hello.snapshot.health "ok" with
    | some b => some (.health b)
    | none => none
  | .event f =>
    if f.event = "health" then
      match f.payload.bind (fun p => getBoolField p "ok") with
      | some b => some (.health b)
      | none => none
    else if f.event = "tick" then some .tick
    else if f.event = "chat" then
      match f.payload with
      | some p =>
        match getStrField p "runId", getStrField p "sessionKey", getStrField p "state" with
        | some r, some k, some st => some (.chat ⟨r, k, st⟩)
        | _, _, _ => none
      | none => none
    else none
  | .seqGap e r => some (.seqGap e r)

/-! ### Claim C9: the mapping rules -/

/-- C9: the transport mapper sends `push.snapshot` with a boolean
`snapshot.health.ok = b` to `health(b)`; a `health` event frame with
`payload.ok = b` to `health(b)`; `tick` to `tick`; a `chat` frame with
`{runId, sessionKey, state}` to the corresponding chat event; any frame with
an unknown event name to `none`; and a `seqGap(expected, received)` to
`seqGap{expected, received}`. -/
theorem mapPushToTransportEvent_rules :
    (∀ (hello : HelloOk) (b : Bool),
      getBoolField hello.snapshot.health "ok" = some b →
      mapPushToTransportEvent (.snapshot hello) = some (.health b)) ∧
    (∀ (f : EventFrame) (b : Bool),
      f.event = "health" →
      f.payload.bind (fun p => getBoolField p "ok") = some b →
      mapPushToTransportEvent (.event f) = some (.health b)) ∧
    (∀ f : EventFrame, f.event = "tick" →
      mapPushToTransportEvent (.event f) = some .tick) ∧
    (∀ (f : EventFrame) (p : JsonValue) (r k st : String),
      f.event = "chat" → f.payload = some p →
      getStrField p "runId" = some r → getStrField p "sessionKey" = some k →
      getStrField p "state" = some st →
      mapPushToTransportEvent (.event f) = some (.chat ⟨r, k, st⟩)) ∧
    (∀ f : EventFrame,
      f.event ≠ "health" → f.event ≠ "tick" → f.event ≠ "chat" →
      mapPushToTransportEvent (.event f) = none) ∧
    (∀ expected received : Nat,
      mapPushToTransportEvent (.seqGap expected received) =
        some (.seqGap expected received)) := by
  refine ⟨?_, ?_, ?_, ?_, ?_, ?_⟩
  · intro hello b hb
    simp [mapPushToTransportEvent, hb]
  · intro f b he hb
    simp [mapPushToTransportEvent, he, hb]
  · intro f he
    simp [mapPushToTransportEvent, he]
  · intro f p r k st he hp hr hk hst
    simp [mapPushToTransportEvent, he, hp, hr, hk, hst]
  · intro f h1 h2 h3
    simp [mapPushToTransportEvent, h1, h2, h3]
  · intro e r
    rfl

theorem mapPushToTransportEvent_rules_witness :
    mapPushToTransportEvent
      (.snapshot { snapshot := { health := .obj [("ok", .bool false)] } }) =
      some (.health false) :=
  mapPushToTransportEvent_rules.1 { snapshot := { health := .obj [("ok", .bool false)] } }
    false rfl
